import Mathlib

/-!
Verification of the Graph Layout & Multi-Format Interchange Engine of the
SkeRVS repository.

The in-memory graph model and the three format codecs (Plain structured
text, Workbook, EmbeddedDB) are translated from
src/src/static/js/index.js; the React controller (import, deletion,
export, selection highlight) is translated from src/frontend/src/App.tsx
and the Graph component in src/frontend/src/components/Sidebar.tsx; the
layout pass is translated from the d3 force-simulation configuration used
by both renderers (forceLink distance 100, forceManyBody strength -300,
forceCenter at the viewport midpoint, forceCollide with radius
sqrt(weight)*50+5 plus a 5px margin, 300 synchronous ticks on a stopped
simulation).

JavaScript dynamic values that flow through the tabular codecs are
modelled by the Cell type (string, integer, or undefined) together with
JavaScript truthiness.  Numeric weights are modelled as rationals; a
rational square-root approximation stands in for Math.sqrt, and the
codecs' Number(w.toFixed(2)) is modelled as rounding to the nearest
hundredth.  Link endpoints are modelled in their raw-id form: the source
extracts the id from a possibly resolved endpoint with
getId(n) = (typeof n === 'object' && n.id) ? n.id : n at every place a
codec or structural edit reads an endpoint.
-/

/-- A JavaScript value appearing in a decoded table cell: a string, an
integer (sqlite surrogate ids, counts), or undefined (a missing field). -/
inductive Cell where
  | str (s : String)
  | num (n : Int)
  | undef
deriving DecidableEq, Repr

/-- JavaScript truthiness of a Cell: the empty string, the number 0 and
undefined are falsy, everything else truthy. -/
def Cell.truthy : Cell → Bool
  | .str s => s ≠ ""
  | .num n => n ≠ 0
  | .undef => false

/-- A JavaScript Map whose set overwrites an existing key: modelled as an
association list built by prepending, looked up by first match, so the
most recently set binding wins. -/
abbrev CellMap := List (Cell × Cell)

def mapSet (m : CellMap) (k v : Cell) : CellMap := (k, v) :: m

def mapGet (m : CellMap) (k : Cell) : Option Cell :=
  (m.find? (fun p => p.1 == k)).map (·.2)

/-- forEach((x, i) => ...) index pairing. -/
def enumFrom (i : Nat) : List α → List (Nat × α)
  | [] => []
  | a :: t => (i, a) :: enumFrom (i + 1) t

/-- In-memory node of the graph model (frontend/src/types.ts): id, weight,
optional group id, optional group display name, optional layout position. -/
structure GNode where
  id : String
  weight : ℚ
  group : Option Int
  groupName : Option String
  pos : Option (ℚ × ℚ)
deriving DecidableEq, Repr

/-- In-memory link, endpoints kept in raw-id form (codecs always read
endpoints through getId, which yields this raw id). -/
structure GLink where
  source : String
  target : String
  weight : ℚ
deriving DecidableEq, Repr

structure GStats where
  nodes : Int
  links : Int
deriving DecidableEq, Repr

structure GMeta where
  file : Option String
  duration : Option String
  stats : Option GStats
deriving DecidableEq, Repr

/-- The in-memory Graph (GraphData in types.ts / globalGraphData in
index.js). -/
structure GraphData where
  nodes : List GNode
  links : List GLink
  meta : Option GMeta
  group_names : Option (List (String × String))
deriving DecidableEq, Repr

/-- Node-table row of a tabular format: id column, optional label column
(absent for the Legacy schema or for an empty cell), weight column. -/
structure NodeRow where
  id : Cell
  label : Option Cell
  weight : ℚ
deriving DecidableEq, Repr

/-- Link-table row of a tabular format. -/
structure LinkRow where
  source : Cell
  target : Cell
  weight : ℚ
deriving DecidableEq, Repr

/-- A node produced by a tabular decode: the decoder pushes objects
carrying only an id and a weight, so group, groupName and position come
out absent. -/
structure TabNode where
  id : Cell
  weight : ℚ
  group : Option Int
  groupName : Option String
  pos : Option (ℚ × ℚ)
deriving DecidableEq, Repr

structure TabLink where
  source : Cell
  target : Cell
  weight : ℚ
deriving DecidableEq, Repr

/-- Graph produced by a tabular decode. -/
structure TabGraph where
  nodes : List TabNode
  links : List TabLink
deriving DecidableEq, Repr

/-- rowObj.label where the cell may be missing: JavaScript yields
undefined. -/
def labelVal (r : NodeRow) : Cell := r.label.getD Cell.undef

/-- The surrogate-id-to-label map built while reading the node table
(index.js importAndVisualize): Current schema maps the id column to the
label column, Legacy maps the id column to itself. -/
def tabMap (hasLabel : Bool) (rows : List NodeRow) : CellMap :=
  rows.foldl (fun m r => mapSet m r.id (if hasLabel then labelVal r else r.id)) []

/-- One decoded node per row: Current schema takes the label column as the
id, Legacy takes the id column; only id and weight are carried. -/
def decodeNodeRow (hasLabel : Bool) (r : NodeRow) : TabNode :=
  if hasLabel then ⟨labelVal r, r.weight, none, none, none⟩
  else ⟨r.id, r.weight, none, none, none⟩

/-- map.get on an endpoint followed by the JavaScript truthiness test of
the decode filter (sourceLabel && targetLabel). -/
def resolveEnd (m : CellMap) (c : Cell) : Option Cell :=
  match mapGet m c with
  | some v => if v.truthy then some v else none
  | none => none

/-- Link-table decode: resolve both endpoints through the map and keep the
row only when both resolve to a truthy label. -/
def decodeLinks (m : CellMap) (rows : List LinkRow) : List TabLink :=
  rows.filterMap (fun r =>
    match resolveEnd m r.source, resolveEnd m r.target with
    | some s, some t => some ⟨s, t, r.weight⟩
    | _, _ => none)

/-- The shared tabular decode of index.js importAndVisualize: interpret
every node row under the single hasLabel decision, build the
surrogate-to-label map, then read the link table through that map. -/
def decodeTabular (hasLabel : Bool) (nodeRows : List NodeRow)
    (linkRows : List LinkRow) : TabGraph :=
  ⟨nodeRows.map (decodeNodeRow hasLabel),
   decodeLinks (tabMap hasLabel nodeRows) linkRows⟩

/-- Workbook schema detection: isNewSchema = rawNodes.length > 0 &&
('label' in rawNodes[0]) — decided from the first parsed row only. -/
def isNewSchema : List NodeRow → Bool
  | [] => false
  | r :: _ => r.label.isSome

/-- Workbook decode (the .xlsx branch of importAndVisualize). -/
def decodeWorkbook (nodeRows : List NodeRow) (linkRows : List LinkRow) : TabGraph :=
  decodeTabular (isNewSchema nodeRows) nodeRows linkRows

/-- EmbeddedDB decode (the .db branch): the schema variant is read from
PRAGMA table_info, i.e. from the presence of the label column in the
schema rather than from the first row. -/
def decodeSQLite (hasLabel : Bool) (nodeRows : List NodeRow)
    (linkRows : List LinkRow) : TabGraph :=
  decodeTabular hasLabel nodeRows linkRows

/-- Number(w.toFixed(2)): round to the nearest hundredth (rational
idealisation of the float, adequate for the non-negative weights the
model carries). -/
def round2 (q : ℚ) : ℚ := ((round (q * 100) : ℤ) : ℚ) / 100

/-- exportDataToExcel, Nodes sheet: one row per node with only the id and
the rounded weight (Legacy shape: no label column). -/
def encodeExcelNodes (g : GraphData) : List NodeRow :=
  g.nodes.map (fun n => ⟨.str n.id, none, round2 n.weight⟩)

/-- exportDataToExcel, Links sheet: raw ids (via getId) and rounded
weights. -/
def encodeExcelLinks (g : GraphData) : List LinkRow :=
  g.links.map (fun l => ⟨.str l.source, .str l.target, round2 l.weight⟩)

/-- exportDataToSQLite's nodeMap: label -> 1-based position, built with
Map.set in node iteration order (a later duplicate overwrites). It reads
only the id of each node. -/
def buildNodeMap (ids : List String) : CellMap :=
  (enumFrom 0 ids).foldl (fun m p => mapSet m (.str p.2) (.num (p.1 + 1))) []

def nodeMapOf (g : GraphData) : CellMap := buildNodeMap (g.nodes.map (·.id))

/-- exportDataToSQLite, nodes table: (surrogate id, label, exact weight). -/
def encodeSQLiteNodes (g : GraphData) : List NodeRow :=
  g.nodes.map (fun n =>
    ⟨(mapGet (nodeMapOf g) (.str n.id)).getD Cell.undef, some (.str n.id), n.weight⟩)

/-- exportDataToSQLite, links table: endpoints replaced by surrogates, a
link written only when both surrogates are truthy (if (sId && tId)). -/
def encodeSQLiteLinks (g : GraphData) : List LinkRow :=
  g.links.filterMap (fun l =>
    match mapGet (nodeMapOf g) (.str l.source), mapGet (nodeMapOf g) (.str l.target) with
    | some s, some t => if s.truthy && t.truthy then some ⟨s, t, l.weight⟩ else none
    | _, _ => none)

/-- A parsed Plain (structured-text) document, before the nodes/links
presence check: either field may be missing. -/
structure PlainDoc where
  nodes : Option (List GNode)
  links : Option (List GLink)
  meta : Option GMeta
  group_names : Option (List (String × String))
deriving DecidableEq, Repr

/-- Plain encode: JSON.stringify of the whole graph object, modelled as
the identity embedding of its fields. -/
def encodePlain (g : GraphData) : PlainDoc :=
  ⟨some g.nodes, some g.links, g.meta, g.group_names⟩

/-- processResult of importAndVisualize: reject when nodes or links is
missing, otherwise adopt the document as the new graph. -/
def processResult (doc : PlainDoc) : Except String GraphData :=
  match doc.nodes, doc.links with
  | some ns, some ls => .ok ⟨ns, ls, doc.meta, doc.group_names⟩
  | _, _ => .error "missing nodes or links"

/-- The vanilla import path around processResult: on error the thrown
exception is caught and the previously live graph is untouched. -/
def importPlainVanilla (current : Option GraphData) (doc : PlainDoc) :
    Option GraphData × Bool :=
  match processResult doc with
  | .ok g => (some g, true)
  | .error _ => (current, false)

/-- React controller state of App.tsx as seen by the import handler: the
raw imported document may be stored before it is validated. -/
structure ImportState where
  graphData : Option PlainDoc
  stats : Option GStats
  nodeCount : Nat
  filteredData : Option GraphData
deriving DecidableEq, Repr

/-- filterData of App.tsx on a well-formed graph: keep the first limit
nodes, then keep only links whose endpoint ids both survive. -/
def filterData (g : GraphData) (limit : Nat) : GraphData :=
  let nodes := g.nodes.take limit
  let ids := nodes.map (·.id)
  { g with nodes := nodes,
           links := g.links.filter (fun l => l.source ∈ ids && l.target ∈ ids) }

/-- handleImport of App.tsx, step by step.  setGraphData(json) and
setStats run before json.nodes.length is read; the length read throws on
a missing nodes field, and filterData throws on data.links.filter when
links is missing, so each failure point leaves the updates already issued
in place.  The Bool records whether the import succeeded. -/
def handleImport (st : ImportState) (doc : PlainDoc) : ImportState × Bool :=
  let st1 := { st with graphData := some doc, stats := doc.meta.bind (·.stats) }
  match doc.nodes with
  | none => (st1, false)
  | some ns =>
    let initialCount := min 200 ns.length
    let st2 := { st1 with nodeCount := initialCount }
    match doc.links with
    | none => (st2, false)
    | some ls =>
      let fd := filterData ⟨ns, ls, doc.meta, doc.group_names⟩ initialCount
      ({ st2 with filteredData := some fd }, true)

/-- React controller state of App.tsx as seen by deletion and export. -/
structure MainState where
  graphData : Option GraphData
  filteredData : Option GraphData
  selectedNode : Option GNode
  nodeCount : Nat
  contextOpen : Bool
deriving DecidableEq, Repr

/-- The structural deletion inside handleDeleteNode: drop the node with
the selected id and every link whose (raw) source or target id equals it. -/
def deleteNodeFromGraph (g : GraphData) (nid : String) : GraphData :=
  { g with nodes := g.nodes.filter (fun n => n.id ≠ nid),
           links := g.links.filter (fun l => l.source ≠ nid && l.target ≠ nid) }

/-- handleDeleteNode of App.tsx: guarded by selectedNode and graphData,
replaces the graph, refilters, clears the selection and closes the
context panel. -/
def handleDeleteNode (st : MainState) : MainState :=
  match st.selectedNode, st.graphData with
  | some sel, some g =>
    let g1 := deleteNodeFromGraph g sel.id
    { st with graphData := some g1,
              filteredData := some (filterData g1 st.nodeCount),
              selectedNode := none,
              contextOpen := false }
  | _, _ => st

/-- handleExport of App.tsx: serializes dataToExport = graphData ||
filteredData, i.e. always the current graph when one is live. -/
def handleExport (st : MainState) : Option GraphData :=
  match st.graphData with
  | some g => some g
  | none => st.filteredData

/-- Neighbor-id set derived by the vanilla renderer (index.js
highlightNeighbors): both endpoint ids of every link touching the
selected id — nothing is added for an isolated selection. -/
def neighborIdsVanilla (links : List GLink) (sel : String) : Finset String :=
  links.foldl (fun acc l =>
    if l.source = sel || l.target = sel then insert l.source (insert l.target acc)
    else acc) ∅

/-- Neighbor-id set derived by the framework renderer (Graph component):
the selected id is added first, then the far endpoint of each touching
link. -/
def neighborIdsReact (links : List GLink) (sel : String) : Finset String :=
  links.foldl (fun acc l =>
    let acc1 := if l.source = sel then insert l.target acc else acc
    if l.target = sel then insert l.source acc1 else acc1) {sel}

/-- The specification's relation: some link connects a and b. -/
def linkConnects (l : GLink) (a b : String) : Prop :=
  (l.source = a ∧ l.target = b) ∨ (l.source = b ∧ l.target = a)

/-- Node opacity of the vanilla renderer: with a selection, dim to 0.1
unless the id is in the derived neighbor set; with no selection
(resetHighlight after a background click) everything is at 1. -/
def nodeOpacityVanilla (links : List GLink) (sel : Option String) (nid : String) : ℚ :=
  match sel with
  | none => 1
  | some s => if nid ∈ neighborIdsVanilla links s then 1 else 1/10

/-- Link opacity of the vanilla renderer: links touching the selection at
1, the rest dimmed; full opacity with no selection. -/
def linkOpacityVanilla (sel : Option String) (l : GLink) : ℚ :=
  match sel with
  | none => 1
  | some s => if l.source = s || l.target = s then 1 else 1/10

/-- Node opacity of the framework renderer (the selection effect of the
Graph component); the selected node is additionally forced to 1. -/
def nodeOpacityReact (links : List GLink) (sel : Option String) (nid : String) : ℚ :=
  match sel with
  | none => 1
  | some s => if nid = s then 1 else if nid ∈ neighborIdsReact links s then 1 else 1/10

def linkOpacityReact (sel : Option String) (l : GLink) : ℚ :=
  match sel with
  | none => 1
  | some s => if l.source = s || l.target = s then 1 else 1/10

/-- Rational surrogate for Math.sqrt on the non-negative rationals the
layout manipulates: sqrt(num/den) approximated through Nat.sqrt at three
decimal digits. -/
def ratSqrt (q : ℚ) : ℚ :=
  if q ≤ 0 then 0 else ((Nat.sqrt (q.num.toNat * 1000000 / q.den) : ℚ) / 1000)

/-- d3-force's deterministic linear congruential generator (the default
randomSource, seeded at construction): s -> (a*s + c) mod 2^32. -/
def lcgNext (s : Nat) : Nat := (1664525 * s + 1013904223) % 4294967296

/-- jiggle(random): a tiny deterministic perturbation used when two
coordinates coincide exactly, consuming one LCG step. -/
def jiggle (s : Nat) : ℚ × Nat :=
  let s1 := lcgNext s
  (((s1 : ℚ) / 4294967296 - 1/2) * (1/1000000), s1)

/-- A simulation node: position, velocity and the derived radius
sqrt(weight)*50+5 (the size computed by both renderers). -/
structure SimNode where
  x : ℚ
  y : ℚ
  vx : ℚ
  vy : ℚ
  size : ℚ
deriving DecidableEq, Repr

/-- Simulation state: nodes, links resolved to node indices (forceLink
rewrites raw ids to node references on initialisation), the cooling
parameter alpha and the LCG state. -/
structure SimState where
  nodes : List SimNode
  links : List (Nat × Nat)
  alpha : ℚ
  rng : Nat
deriving DecidableEq, Repr

def getN (ns : List SimNode) (i : Nat) : SimNode := ns.getD i ⟨0, 0, 0, 0, 0⟩

def updAt (ns : List SimNode) (i : Nat) (f : SimNode → SimNode) : List SimNode :=
  ns.set i (f (getN ns i))

/-- forceLink's per-node link count (a self loop contributes twice). -/
def linkCount (links : List (Nat × Nat)) (i : Nat) : Nat :=
  links.foldl (fun c l =>
    c + (if l.1 = i then 1 else 0) + (if l.2 = i then 1 else 0)) 0

/-- Rational stand-ins for d3's alphaDecay = 1 - 0.001^(1/300) and for the
velocity multiplier 1 - velocityDecay = 0.6. -/
def alphaDecayQ : ℚ := 2276278 / 100000000

def velDecayQ : ℚ := 3/5

/-- d3.forceLink().distance(100): for each link, an attraction of both
endpoints toward rest distance 100, with the default count-based strength
and bias, jiggling coincident endpoints. -/
def applyLinkForce (st : SimState) : SimState :=
  st.links.foldl (fun acc l =>
    let s := getN acc.nodes l.1
    let t := getN acc.nodes l.2
    let dx0 := t.x + t.vx - s.x - s.vx
    let jx := if dx0 = 0 then jiggle acc.rng else (dx0, acc.rng)
    let dy0 := t.y + t.vy - s.y - s.vy
    let jy := if dy0 = 0 then jiggle jx.2 else (dy0, jx.2)
    let len := ratSqrt (jx.1 * jx.1 + jy.1 * jy.1)
    let cs := linkCount st.links l.1
    let ct := linkCount st.links l.2
    let strength := 1 / (min cs ct : ℚ)
    let bias := (cs : ℚ) / ((cs : ℚ) + (ct : ℚ))
    let k := (len - 100) / len * acc.alpha * strength
    let fx := jx.1 * k
    let fy := jy.1 * k
    let ns1 := updAt acc.nodes l.2 (fun n =>
      { n with vx := n.vx - fx * bias, vy := n.vy - fy * bias })
    let ns2 := updAt ns1 l.1 (fun n =>
      { n with vx := n.vx + fx * (1 - bias), vy := n.vy + fy * (1 - bias) })
    { acc with nodes := ns2, rng := jy.2 }) st

/-- d3.forceManyBody().strength(-300): pairwise repulsion (the quadtree
approximation of the source collapses to the exact pairwise force at
theta = 0), with d3's distanceMin2 = 1 softening and coincidence jiggle. -/
def applyChargeForce (st : SimState) : SimState :=
  let count := st.nodes.length
  (List.range count).foldl (fun acc i =>
    (List.range count).foldl (fun acc2 j =>
      if i = j then acc2 else
        let ni := getN acc2.nodes i
        let nj := getN acc2.nodes j
        let dx0 := nj.x - ni.x
        let jx := if dx0 = 0 then jiggle acc2.rng else (dx0, acc2.rng)
        let dy0 := nj.y - ni.y
        let jy := if dy0 = 0 then jiggle jx.2 else (dy0, jx.2)
        let l2 := jx.1 * jx.1 + jy.1 * jy.1
        let l2s := if l2 < 1 then ratSqrt l2 else l2
        let w := (-300) * acc2.alpha / l2s
        let ns1 := updAt acc2.nodes i (fun n =>
          { n with vx := n.vx + jx.1 * w, vy := n.vy + jy.1 * w })
        { acc2 with nodes := ns1, rng := jy.2 }) acc) st

/-- d3.forceCenter(width/2, height/2): translate all nodes so their mean
lands on the viewport midpoint. -/
def applyCenterForce (w h : ℚ) (st : SimState) : SimState :=
  let count := st.nodes.length
  if count = 0 then st else
    let sx := (st.nodes.foldl (fun a nd => a + nd.x) 0) / (count : ℚ) - w / 2
    let sy := (st.nodes.foldl (fun a nd => a + nd.y) 0) / (count : ℚ) - h / 2
    { st with nodes := st.nodes.map (fun nd => { nd with x := nd.x - sx, y := nd.y - sy }) }

/-- d3.forceCollide().radius(size + 5), one iteration: overlapping pairs
are pushed apart in proportion to the squared-radius ratio. -/
def applyCollideForce (st : SimState) : SimState :=
  let count := st.nodes.length
  (List.range count).foldl (fun acc i =>
    (List.range count).foldl (fun acc2 j =>
      if i < j then
        let ni := getN acc2.nodes i
        let nj := getN acc2.nodes j
        let ri := ni.size + 5
        let rj := nj.size + 5
        let dx0 := ni.x + ni.vx - nj.x - nj.vx
        let dy0 := ni.y + ni.vy - nj.y - nj.vy
        let l2 := dx0 * dx0 + dy0 * dy0
        let r := ri + rj
        if l2 < r * r then
          let jx := if dx0 = 0 then jiggle acc2.rng else (dx0, acc2.rng)
          let jy := if dy0 = 0 then jiggle jx.2 else (dy0, jx.2)
          let len := ratSqrt (jx.1 * jx.1 + jy.1 * jy.1)
          let k := (r - len) / len
          let px := jx.1 * k
          let py := jy.1 * k
          let share := rj * rj / (ri * ri + rj * rj)
          let ns1 := updAt acc2.nodes i (fun n =>
            { n with vx := n.vx + px * share, vy := n.vy + py * share })
          let ns2 := updAt ns1 j (fun n =>
            { n with vx := n.vx - px * (1 - share), vy := n.vy - py * (1 - share) })
          { acc2 with nodes := ns2, rng := jy.2 }
        else acc2
      else acc2) acc) st

/-- simulation.tick(): decay alpha toward the alphaTarget of 0, apply the
four registered forces in registration order, then integrate velocities
with the velocity decay. -/
def tick (w h : ℚ) (st : SimState) : SimState :=
  let st1 := { st with alpha := st.alpha + (0 - st.alpha) * alphaDecayQ }
  let st2 := applyLinkForce st1
  let st3 := applyChargeForce st2
  let st4 := applyCenterForce w h st3
  let st5 := applyCollideForce st4
  { st5 with nodes := st5.nodes.map (fun nd =>
      { nd with vx := nd.vx * velDecayQ, x := nd.x + nd.vx * velDecayQ,
                vy := nd.vy * velDecayQ, y := nd.y + nd.vy * velDecayQ }) }

/-- Deterministic initial placement for a node that arrives without a
position, as a function of its index (rational surrogate for d3's
phyllotaxis spiral radius 10*sqrt(0.5+i) at the golden angle). -/
def initPos (i : Nat) : ℚ × ℚ :=
  (10 * ratSqrt ((1/2) + (i : ℚ)), (i : ℚ) * (399/1000))

/-- Building a simulation from the input graph, given the current state
of the d3 random source: nodes keep an existing position and otherwise
receive the deterministic placement; link endpoints are resolved to node
indices (renderers pass links already filtered to surviving nodes);
alpha is reset to 1.  The random-source state is an explicit parameter
because the two renderers differ in where it comes from: the framework
renderer constructs a fresh simulation per pass while the vanilla
renderer carries one simulation (and hence one LCG) across passes. -/
def initSimWith (g : GraphData) (rng : Nat) : SimState :=
  let nodes := (enumFrom 0 g.nodes).map (fun p =>
    let xy := p.2.pos.getD (initPos p.1)
    (⟨xy.1, xy.2, 0, 0, ratSqrt p.2.weight * 50 + 5⟩ : SimNode))
  let ids := g.nodes.map (·.id)
  let links := g.links.filterMap (fun l =>
    let i := ids.indexOf l.source
    let j := ids.indexOf l.target
    if i < ids.length && j < ids.length then some (i, j) else none)
  ⟨nodes, links, 1, rng⟩

/-- The framework renderer's simulation setup (Graph component): a fresh
d3.forceSimulation is constructed inside the effect on every layout
pass, so its default random source starts from the library's fixed LCG
seed each time. -/
def initSim (g : GraphData) : SimState := initSimWith g 1

/-- The synchronous stabilisation loop of both renderers:
for (let i = 0; i < 300; ++i) simulation.tick(). -/
def simulateLoop (w h : ℚ) (s : SimState) : SimState :=
  (List.range 300).foldl (fun a _ => tick w h a) s

/-- One renderGraph invocation of the vanilla renderer: in index.js the
simulation is a module-level singleton created once at page load and
never rebuilt — renderGraph resets alpha with alpha(1) but nothing
resets the simulation's LCG — so every invocation starts from whatever
random-source state the previous invocation left behind.  The rng
argument is that incoming state and the .rng field of the result is the
state handed to the next invocation: across successive calls the vanilla
layout is a function of this carried state as well as of the graph,
width and height. -/
def vanillaRender (rng : Nat) (g : GraphData) (w h : ℚ) : SimState :=
  simulateLoop w h (initSimWith g rng)

/-- The layout pass contract layout(graph, width, height) of the
framework renderer: run the fixed 300-tick budget from the fresh initial
state and write the final positions onto the nodes. -/
def layoutGraph (g : GraphData) (w h : ℚ) : GraphData :=
  let final := simulateLoop w h (initSim g)
  { g with nodes := (g.nodes.zip final.nodes).map (fun p =>
      { p.1 with pos := some (p.2.x, p.2.y) }) }

/-- The output the render adapter reads: one position per node. -/
def layoutPositions (g : GraphData) (w h : ℚ) : List (ℚ × ℚ) :=
  (simulateLoop w h (initSim g)).nodes.map (fun n => (n.x, n.y))

/-- The Legacy-schema table of a logical graph: the id column holds the
label directly, no label column (the spec's first schema variant, the
shape exportDataToExcel writes). -/
def legacyNodeRows (g : GraphData) : List NodeRow :=
  g.nodes.map (fun n => ⟨.str n.id, none, n.weight⟩)

def legacyLinkRows (g : GraphData) : List LinkRow :=
  g.links.map (fun l => ⟨.str l.source, .str l.target, l.weight⟩)

/-- The 1-based surrogate of an id in node iteration order (the spec's
Current variant; an id absent from the node table receives the
out-of-range surrogate length+1, necessarily dangling). -/
def surrogateOf (g : GraphData) (s : String) : Cell :=
  .num (((g.nodes.map (·.id)).indexOf s : Int) + 1)

/-- The Current-schema table of the same logical graph: synthetic integer
surrogates in the id column, the real node id in the label column. -/
def currentNodeRows (g : GraphData) : List NodeRow :=
  (enumFrom 0 g.nodes).map (fun p => ⟨.num ((p.1 : Int) + 1), some (.str p.2.id), p.2.weight⟩)

def currentLinkRows (g : GraphData) : List LinkRow :=
  g.links.map (fun l => ⟨surrogateOf g l.source, surrogateOf g l.target, l.weight⟩)

/-- A link row is dangling when the id-to-label map built from the node
table has no entry for its source or its target. -/
def isDangling (m : CellMap) (r : LinkRow) : Bool :=
  (mapGet m r.source).isNone || (mapGet m r.target).isNone

/-- The decode filter as a boolean: both endpoints resolve to truthy
labels. -/
def keepRow (m : CellMap) (r : LinkRow) : Bool :=
  (resolveEnd m r.source).isSome && (resolveEnd m r.target).isSome

theorem foldl_cons_shape (ent : α → β) :
    ∀ (l : List α) (init : List β),
      l.foldl (fun m r => ent r :: m) init = (l.map ent).reverse ++ init := by
  intro l
  induction l with
  | nil => intro init; simp
  | cons a t ih =>
      intro init
      simp only [List.foldl_cons, List.map_cons, List.reverse_cons, ih, List.append_assoc,
        List.singleton_append]

theorem tabMap_shape (hasLabel : Bool) (rows : List NodeRow) :
    tabMap hasLabel rows =
      (rows.map (fun r => (r.id, if hasLabel then labelVal r else r.id))).reverse := by
  unfold tabMap mapSet
  rw [foldl_cons_shape (fun r => (r.id, if hasLabel then labelVal r else r.id)) rows []]
  simp

theorem buildNodeMap_shape (ids : List String) :
    buildNodeMap ids =
      ((enumFrom 0 ids).map (fun p => (Cell.str p.2, Cell.num (p.1 + 1)))).reverse := by
  unfold buildNodeMap mapSet
  rw [foldl_cons_shape (fun p => (Cell.str p.2, Cell.num (p.1 + 1))) (enumFrom 0 ids) []]
  simp

theorem mapGet_cons (k0 v0 : Cell) (m : CellMap) (c : Cell) :
    mapGet ((k0, v0) :: m) c = if k0 = c then some v0 else mapGet m c := by
  by_cases h : k0 = c <;> simp [mapGet, List.find?_cons, h]

theorem mapGet_eq_none (m : CellMap) (k : Cell) (h : k ∉ m.map (·.1)) :
    mapGet m k = none := by
  induction m with
  | nil => rfl
  | cons p t ih =>
      rcases p with ⟨k0, v0⟩
      rw [mapGet_cons]
      simp only [List.map_cons, List.mem_cons] at h
      push_neg at h
      rw [if_neg (Ne.symm h.1), ih h.2]

theorem mapGet_idmap (m : CellMap) (c : Cell) (h : ∀ p ∈ m, p.2 = p.1) :
    mapGet m c = if c ∈ m.map (·.1) then some c else none := by
  induction m with
  | nil => rfl
  | cons p t ih =>
      rcases p with ⟨k0, v0⟩
      have hv : v0 = k0 := h (k0, v0) (List.mem_cons_self _ _)
      rw [mapGet_cons]
      by_cases hk : k0 = c
      · subst hk
        simp [hv]
      · have ht : ∀ p ∈ t, (p : Cell × Cell).2 = p.1 := fun p hp => h p (List.mem_cons_of_mem _ hp)
        rw [if_neg hk, ih ht]
        simp only [List.map_cons, List.mem_cons]
        by_cases hc : c ∈ t.map (·.1)
        · rw [if_pos hc, if_pos (Or.inr hc)]
        · rw [if_neg hc, if_neg]
          rintro (h1 | h2)
          · exact hk h1.symm
          · exact hc h2

theorem mapGet_nodupKeys (m : CellMap) (k v : Cell) (h1 : (k, v) ∈ m)
    (h2 : (m.map (·.1)).Nodup) : mapGet m k = some v := by
  induction m with
  | nil => cases h1
  | cons p t ih =>
      rcases p with ⟨k0, v0⟩
      simp only [List.map_cons, List.nodup_cons] at h2
      rw [mapGet_cons]
      by_cases hk : k0 = k
      · subst hk
        rcases List.mem_cons.mp h1 with h | h
        · simp at h
          rw [if_pos rfl, h]
        · exact absurd (List.mem_map.mpr ⟨(k0, v), h, rfl⟩) h2.1
      · rcases List.mem_cons.mp h1 with h | h
        · exact absurd (congrArg Prod.fst h).symm hk
        · rw [if_neg hk]
          exact ih h h2.2

theorem filterMap_all_some (l : List α) (f : α → Option β) (g : α → β)
    (h : ∀ a ∈ l, f a = some (g a)) : l.filterMap f = l.map g := by
  induction l with
  | nil => rfl
  | cons a t ih =>
      rw [List.filterMap_cons, h a (List.mem_cons_self _ _), List.map_cons,
        ih (fun x hx => h x (List.mem_cons_of_mem _ hx))]

theorem enumFrom_length (l : List α) : ∀ i, (enumFrom i l).length = l.length := by
  induction l with
  | nil => intro i; rfl
  | cons a t ih => intro i; simp [enumFrom, ih]

theorem enumFrom_map_snd (l : List α) : ∀ i, (enumFrom i l).map (·.2) = l := by
  induction l with
  | nil => intro i; rfl
  | cons a t ih => intro i; simp [enumFrom, ih]

theorem enumFrom_map_fst (l : List α) : ∀ i, (enumFrom i l).map (·.1) = List.range' i l.length := by
  induction l with
  | nil => intro i; rfl
  | cons a t ih => intro i; simp [enumFrom, ih, List.range'_succ]

theorem mem_enumFrom_of_get (l : List α) :
    ∀ (i j : Nat) (hj : j < l.length), (i + j, l.get ⟨j, hj⟩) ∈ enumFrom i l := by
  induction l with
  | nil => intro i j hj; simp at hj
  | cons a t ih =>
      intro i j hj
      cases j with
      | zero => simp [enumFrom]
      | succ j =>
          have hj2 : j < t.length := Nat.lt_of_succ_lt_succ hj
          have := ih (i + 1) j hj2
          have harith : i + 1 + j = i + (j + 1) := by omega
          rw [harith] at this
          exact List.mem_cons_of_mem _ this

theorem enumFrom_get (l : List α) :
    ∀ (i j : Nat) (hj : j < l.length) (hj2 : j < (enumFrom i l).length),
      (enumFrom i l).get ⟨j, hj2⟩ = (i + j, l.get ⟨j, hj⟩) := by
  induction l with
  | nil => intro i j hj; simp at hj
  | cons a t ih =>
      intro i j hj hj2
      cases j with
      | zero => simp [enumFrom]
      | succ j =>
          have hjt : j < t.length := Nat.lt_of_succ_lt_succ hj
          have hjt2 : j < (enumFrom (i + 1) t).length := by
            rw [enumFrom_length]; exact hjt
          have := ih (i + 1) j hjt hjt2
          simp only [enumFrom, List.get_cons_succ]
          rw [this]
          congr 1
          omega

theorem currentNodeRows_length (g : GraphData) :
    (currentNodeRows g).length = g.nodes.length := by
  simp [currentNodeRows, enumFrom_length]

theorem currentNodeRows_get (g : GraphData) (j : Nat) (hj : j < g.nodes.length)
    (hj2 : j < (currentNodeRows g).length) :
    (currentNodeRows g).get ⟨j, hj2⟩ =
      ⟨.num ((j : Int) + 1), some (.str (g.nodes.get ⟨j, hj⟩).id),
       (g.nodes.get ⟨j, hj⟩).weight⟩ := by
  unfold currentNodeRows
  have he : j < (enumFrom 0 g.nodes).length := by rw [enumFrom_length]; exact hj
  have hg := enumFrom_get g.nodes 0 j hj he
  simp only [List.get_eq_getElem, List.getElem_map]
  simp only [List.get_eq_getElem] at hg
  rw [hg]
  simp

theorem currentNodeRows_key (g : GraphData) :
    ∀ (j : Nat) (hj : j < (currentNodeRows g).length),
      ((currentNodeRows g).get ⟨j, hj⟩).id = .num ((j : Int) + 1) := by
  intro j hj
  have hjn : j < g.nodes.length := by
    rw [← currentNodeRows_length g]; exact hj
  rw [currentNodeRows_get g j hjn hj]

theorem tabMap_false_idmap (rows : List NodeRow) :
    ∀ p ∈ tabMap false rows, (p : Cell × Cell).2 = p.1 := by
  intro p hp
  rw [tabMap_shape] at hp
  rcases List.mem_map.mp (List.mem_reverse.mp hp) with ⟨r, _, rfl⟩
  simp

theorem tabMap_keys (hasLabel : Bool) (rows : List NodeRow) (c : Cell) :
    c ∈ (tabMap hasLabel rows).map (·.1) ↔ c ∈ rows.map (·.id) := by
  rw [tabMap_shape, List.map_reverse, List.mem_reverse, List.map_map]
  constructor
  · intro h
    rcases List.mem_map.mp h with ⟨r, hr, rfl⟩
    exact List.mem_map.mpr ⟨r, hr, rfl⟩
  · intro h
    rcases List.mem_map.mp h with ⟨r, hr, rfl⟩
    exact List.mem_map.mpr ⟨r, hr, rfl⟩

/-- Legacy decode of an endpoint: the identity map resolves an endpoint
to itself exactly when the id occurs in the node table; the truthiness
filter additionally rejects falsy labels. -/
theorem resolveEnd_legacy (rows : List NodeRow) (c : Cell) :
    resolveEnd (tabMap false rows) c =
      if c ∈ rows.map (·.id) ∧ c.truthy = true then some c else none := by
  unfold resolveEnd
  rw [mapGet_idmap _ c (tabMap_false_idmap rows)]
  by_cases hc : c ∈ rows.map (·.id)
  · rw [if_pos ((tabMap_keys false rows c).mpr hc)]
    by_cases ht : c.truthy = true
    · simp [ht, hc]
    · simp [ht, hc]
  · rw [if_neg (fun hh => hc ((tabMap_keys false rows c).mp hh))]
    simp [hc]

theorem tabMap_true_get (R : List NodeRow)
    (hkey : ∀ (j : Nat) (hj : j < R.length), (R.get ⟨j, hj⟩).id = .num ((j : Int) + 1))
    (j : Nat) (hj : j < R.length) :
    mapGet (tabMap true R) (.num ((j : Int) + 1)) = some (labelVal (R.get ⟨j, hj⟩)) := by
  apply mapGet_nodupKeys
  · rw [tabMap_shape, List.mem_reverse]
    refine List.mem_map.mpr ⟨R.get ⟨j, hj⟩, List.get_mem R j hj, ?_⟩
    rw [hkey j hj]
    simp
  · rw [tabMap_shape, List.map_reverse, List.map_map]
    rw [List.nodup_reverse]
    refine List.nodup_iff_injective_get.mpr ?_
    intro a b hab
    have la : (a : Nat) < R.length := by
      have := a.2; simpa using this
    have lb : (b : Nat) < R.length := by
      have := b.2; simpa using this
    simp only [List.get_eq_getElem, List.getElem_map, Function.comp_apply] at hab
    have ha := hkey a la
    have hb := hkey b lb
    simp only [List.get_eq_getElem] at ha hb
    rw [ha, hb] at hab
    have h2 : ((a : Nat) : Int) + 1 = ((b : Nat) : Int) + 1 := Cell.num.inj hab
    have h3 : (a : Nat) = (b : Nat) := by omega
    exact Fin.ext h3

theorem tabMap_true_get_none (R : List NodeRow)
    (hkey : ∀ (j : Nat) (hj : j < R.length), (R.get ⟨j, hj⟩).id = .num ((j : Int) + 1))
    (k : Cell) (hk : ∀ (j : Nat), j < R.length → k ≠ .num ((j : Int) + 1)) :
    mapGet (tabMap true R) k = none := by
  apply mapGet_eq_none
  intro hmem
  rcases List.mem_map.mp ((tabMap_keys true R k).mp hmem) with ⟨r, hr, hid⟩
  rcases List.mem_iff_get.mp hr with ⟨j, hjr⟩
  have hkj : k = .num (((j : Nat) : Int) + 1) := by
    rw [← hid, ← hjr]
    exact hkey j.1 j.2
  exact hk j.1 j.2 hkj

/-- Legacy endpoint resolution over a node table whose id column holds
the string ids of the graph: a link endpoint survives exactly when its id
occurs in the node list and is non-empty. -/
theorem resolveEnd_strRows (rows : List NodeRow) (g : GraphData)
    (hrows : rows.map (·.id) = g.nodes.map (fun n => Cell.str n.id)) (s : String) :
    resolveEnd (tabMap false rows) (.str s) =
      if s ∈ g.nodes.map (·.id) ∧ s ≠ "" then some (.str s) else none := by
  rw [resolveEnd_legacy]
  have hmem : (Cell.str s ∈ rows.map (·.id)) ↔ s ∈ g.nodes.map (·.id) := by
    rw [hrows]
    constructor
    · intro h
      rcases List.mem_map.mp h with ⟨n, hn, he⟩
      exact List.mem_map.mpr ⟨n, hn, Cell.str.inj he⟩
    · intro h
      rcases List.mem_map.mp h with ⟨n, hn, he⟩
      exact List.mem_map.mpr ⟨n, hn, by rw [he]⟩
  by_cases h1 : s ∈ g.nodes.map (·.id) <;> by_cases h2 : s = "" <;>
    simp [hmem, h1, h2, Cell.truthy]

/-- Current endpoint resolution: reading a surrogate through the
surrogate-to-label map recovers the string id, under exactly the same
survival condition as the Legacy path. -/
theorem resolveEnd_current (g : GraphData) (s : String) :
    resolveEnd (tabMap true (currentNodeRows g)) (surrogateOf g s) =
      if s ∈ g.nodes.map (·.id) ∧ s ≠ "" then some (.str s) else none := by
  by_cases hs : s ∈ g.nodes.map (·.id)
  · have hlt : (g.nodes.map (·.id)).indexOf s < (g.nodes.map (·.id)).length :=
      List.indexOf_lt_length.mpr hs
    have hlt2 : (g.nodes.map (·.id)).indexOf s < g.nodes.length := by
      simpa using hlt
    have hlen : (g.nodes.map (·.id)).indexOf s < (currentNodeRows g).length := by
      rw [currentNodeRows_length]; exact hlt2
    unfold resolveEnd surrogateOf
    rw [tabMap_true_get (currentNodeRows g) (currentNodeRows_key g) _ hlen]
    rw [currentNodeRows_get g _ hlt2 hlen]
    have hid : g.nodes[(g.nodes.map (·.id)).indexOf s].id = s := by
      have hg := List.indexOf_get (a := s) (l := g.nodes.map (·.id)) hlt
      rw [List.get_eq_getElem, List.getElem_map] at hg
      exact hg
    by_cases h2 : s = ""
    · subst h2
      simp [labelVal, hid, hs, Cell.truthy]
    · simp [labelVal, hid, hs, h2, Cell.truthy]
  · have hidx : (g.nodes.map (·.id)).indexOf s = (g.nodes.map (·.id)).length :=
      List.indexOf_eq_length.mpr hs
    unfold resolveEnd surrogateOf
    rw [hidx, tabMap_true_get_none (currentNodeRows g) (currentNodeRows_key g)]
    · simp [hs]
    · intro j hj heq
      have hq : (((g.nodes.map (·.id)).length : Int) + 1) = ((j : Int) + 1) :=
        Cell.num.inj heq
      have hjlen : j < g.nodes.length := by
        rw [← currentNodeRows_length g]; exact hj
      have : (g.nodes.map (·.id)).length = g.nodes.length := by simp
      omega

theorem map_enumFrom_snd (l : List α) :
    ∀ (i : Nat) (f : α → β), (enumFrom i l).map (fun p => f p.2) = l.map f := by
  induction l with
  | nil => intro i f; rfl
  | cons a t ih => intro i f; simp [enumFrom, ih]

theorem decodeLinks_nil (rows : List LinkRow) : decodeLinks [] rows = [] := by
  unfold decodeLinks
  refine List.filterMap_eq_nil_iff.mpr ?_
  intro r _
  rfl

theorem match_two_ifs {P Q : Prop} [Decidable P] [Decidable Q] (x y : Cell) (w : ℚ) :
    (match (if P then some x else none : Option Cell),
           (if Q then some y else none : Option Cell) with
     | some s, some t => some (⟨s, t, w⟩ : TabLink)
     | _, _ => none) =
    if P ∧ Q then some (⟨x, y, w⟩ : TabLink) else none := by
  by_cases hp : P <;> by_cases hq : Q <;> simp [hp, hq]

/-- The closed form of the Legacy-table link decode: a link survives with
its string endpoints exactly when both endpoint ids occur among the node
ids and are non-empty. -/
theorem decodeLinks_legacy_closed (g : GraphData) :
    decodeLinks (tabMap false (legacyNodeRows g)) (legacyLinkRows g) =
      g.links.filterMap (fun l =>
        if (l.source ∈ g.nodes.map (·.id) ∧ l.source ≠ "") ∧
           (l.target ∈ g.nodes.map (·.id) ∧ l.target ≠ "") then
          some (⟨.str l.source, .str l.target, l.weight⟩ : TabLink)
        else none) := by
  have hrowsL : (legacyNodeRows g).map (·.id) = g.nodes.map (fun n => Cell.str n.id) := by
    simp [legacyNodeRows, List.map_map, Function.comp]
  unfold decodeLinks legacyLinkRows
  rw [List.filterMap_map]
  apply List.filterMap_congr
  intro l _
  simp only [Function.comp_apply]
  rw [resolveEnd_strRows (legacyNodeRows g) g hrowsL l.source,
    resolveEnd_strRows (legacyNodeRows g) g hrowsL l.target, match_two_ifs]

/-- The closed form of the Current-table link decode is the same. -/
theorem decodeLinks_current_closed (g : GraphData) :
    decodeLinks (tabMap true (currentNodeRows g)) (currentLinkRows g) =
      g.links.filterMap (fun l =>
        if (l.source ∈ g.nodes.map (·.id) ∧ l.source ≠ "") ∧
           (l.target ∈ g.nodes.map (·.id) ∧ l.target ≠ "") then
          some (⟨.str l.source, .str l.target, l.weight⟩ : TabLink)
        else none) := by
  unfold decodeLinks currentLinkRows
  rw [List.filterMap_map]
  apply List.filterMap_congr
  intro l _
  simp only [Function.comp_apply]
  rw [resolveEnd_current g l.source, resolveEnd_current g l.target, match_two_ifs]

theorem decodeNodes_legacy_closed (g : GraphData) :
    (legacyNodeRows g).map (decodeNodeRow false) =
      g.nodes.map (fun n => (⟨.str n.id, n.weight, none, none, none⟩ : TabNode)) := by
  simp [legacyNodeRows, List.map_map, decodeNodeRow, Function.comp]

theorem decodeNodes_current_closed (g : GraphData) :
    (currentNodeRows g).map (decodeNodeRow true) =
      g.nodes.map (fun n => (⟨.str n.id, n.weight, none, none, none⟩ : TabNode)) := by
  unfold currentNodeRows
  rw [List.map_map]
  have hfun : (decodeNodeRow true ∘ fun p : Nat × GNode =>
      (⟨.num ((p.1 : Int) + 1), some (.str p.2.id), p.2.weight⟩ : NodeRow)) =
      fun p : Nat × GNode => (⟨.str p.2.id, p.2.weight, none, none, none⟩ : TabNode) := by
    funext p
    simp [decodeNodeRow, labelVal, Function.comp]
  rw [hfun]
  exact map_enumFrom_snd g.nodes 0 (fun n => (⟨.str n.id, n.weight, none, none, none⟩ : TabNode))

theorem buildNodeMap_get (ids : List String) (hnodup : ids.Nodup) (s : String)
    (hs : s ∈ ids) :
    mapGet (buildNodeMap ids) (.str s) = some (.num ((ids.indexOf s : Int) + 1)) := by
  apply mapGet_nodupKeys
  · rw [buildNodeMap_shape, List.mem_reverse]
    have hlt : ids.indexOf s < ids.length := List.indexOf_lt_length.mpr hs
    have hmem := mem_enumFrom_of_get ids 0 (ids.indexOf s) hlt
    rw [List.indexOf_get hlt, Nat.zero_add] at hmem
    exact List.mem_map.mpr ⟨(ids.indexOf s, s), hmem, rfl⟩
  · rw [buildNodeMap_shape, List.map_reverse, List.map_map, List.nodup_reverse]
    have hcomp : ((fun x : Cell × Cell => x.1) ∘
        fun p : Nat × String => (Cell.str p.2, Cell.num ((p.1 : Int) + 1))) =
        fun p : Nat × String => Cell.str p.2 := rfl
    rw [hcomp, map_enumFrom_snd ids 0 Cell.str]
    exact hnodup.map (fun a b hab => Cell.str.inj hab)

/-- Under unique node ids, the EmbeddedDB encoder's node table is exactly
the Current-schema table: surrogate i+1 in iteration order, label, exact
weight. -/
theorem encodeSQLiteNodes_eq_current (g : GraphData)
    (hnodup : (g.nodes.map (·.id)).Nodup) :
    encodeSQLiteNodes g = currentNodeRows g := by
  apply List.ext_get
  · simp [encodeSQLiteNodes, currentNodeRows_length]
  · intro i h1 h2
    have hi : i < g.nodes.length := by
      simpa [encodeSQLiteNodes] using h1
    have hcl : i < (currentNodeRows g).length := h2
    rw [currentNodeRows_get g i hi hcl]
    simp only [encodeSQLiteNodes, List.get_eq_getElem, List.getElem_map]
    have hmem : g.nodes[i].id ∈ g.nodes.map (·.id) := by
      refine List.mem_map.mpr ⟨g.nodes[i], ?_, rfl⟩
      exact List.getElem_mem hi
    unfold nodeMapOf
    rw [buildNodeMap_get (g.nodes.map (·.id)) hnodup _ hmem]
    have hlen : i < (g.nodes.map (·.id)).length := by simpa using hi
    have hidx : (g.nodes.map (·.id)).indexOf g.nodes[i].id = i := by
      have hg := List.get_indexOf hnodup ⟨i, hlen⟩
      simpa [List.get_eq_getElem, List.getElem_map] using hg
    rw [hidx]
    rfl

/-- Under unique node ids and resolvable endpoints, the EmbeddedDB
encoder's link table is exactly the Current-schema link table. -/
theorem encodeSQLiteLinks_eq_current (g : GraphData)
    (hnodup : (g.nodes.map (·.id)).Nodup)
    (hsrc : ∀ l ∈ g.links, l.source ∈ g.nodes.map (·.id))
    (htgt : ∀ l ∈ g.links, l.target ∈ g.nodes.map (·.id)) :
    encodeSQLiteLinks g = currentLinkRows g := by
  unfold encodeSQLiteLinks currentLinkRows
  apply filterMap_all_some
  intro l hl
  unfold nodeMapOf
  rw [buildNodeMap_get (g.nodes.map (·.id)) hnodup _ (hsrc l hl),
    buildNodeMap_get (g.nodes.map (·.id)) hnodup _ (htgt l hl)]
  have ht1 : Cell.truthy (.num (((g.nodes.map (·.id)).indexOf l.source : Int) + 1)) = true := by
    simp [Cell.truthy]
    omega
  have ht2 : Cell.truthy (.num (((g.nodes.map (·.id)).indexOf l.target : Int) + 1)) = true := by
    simp [Cell.truthy]
    omega
  rw [show ∀ a b : Cell, (match some a, some b with
      | some s, some t => if s.truthy && t.truthy then some (⟨s, t, l.weight⟩ : LinkRow) else none
      | _, _ => none) = if a.truthy && b.truthy then some (⟨a, b, l.weight⟩ : LinkRow) else none
    from fun a b => rfl]
  rw [ht1, ht2]
  rfl

theorem isNewSchema_excel (g : GraphData) : isNewSchema (encodeExcelNodes g) = false := by
  rcases g with ⟨ns, ls, m, gn⟩
  cases ns <;> rfl

/-- C2: decoding the Legacy-schema tabular representation of a logical
graph and decoding its Current-schema representation (1-based integer
surrogates plus a label column, the spec's table) yield identical decoded
Graphs: the decoder detects the variant by the presence of the label
column, builds a surrogate-to-label map (the identity map for Legacy) and
resolves link endpoints through it, so decoded link endpoints are always
the raw string ids of nodes of the graph, never surrogate integers. -/
theorem schema_version_transparency (g : GraphData) :
    decodeWorkbook (legacyNodeRows g) (legacyLinkRows g) =
      decodeWorkbook (currentNodeRows g) (currentLinkRows g) ∧
    ∀ l ∈ (decodeWorkbook (currentNodeRows g) (currentLinkRows g)).links,
      (∃ n ∈ g.nodes, l.source = .str n.id) ∧ ∃ n ∈ g.nodes, l.target = .str n.id := by
  have hmemlinks : ∀ l ∈ g.links.filterMap (fun l =>
        if (l.source ∈ g.nodes.map (·.id) ∧ l.source ≠ "") ∧
           (l.target ∈ g.nodes.map (·.id) ∧ l.target ≠ "") then
          some (⟨.str l.source, .str l.target, l.weight⟩ : TabLink)
        else none),
      (∃ n ∈ g.nodes, l.source = .str n.id) ∧ ∃ n ∈ g.nodes, l.target = .str n.id := by
    intro l hl
    rcases List.mem_filterMap.mp hl with ⟨a, _, hfa⟩
    by_cases hcond : (a.source ∈ g.nodes.map (·.id) ∧ a.source ≠ "") ∧
        (a.target ∈ g.nodes.map (·.id) ∧ a.target ≠ "")
    · rw [if_pos hcond] at hfa
      have hla : l = ⟨.str a.source, .str a.target, a.weight⟩ := (Option.some.inj hfa).symm
      subst hla
      rcases List.mem_map.mp hcond.1.1 with ⟨n1, hn1, he1⟩
      rcases List.mem_map.mp hcond.2.1 with ⟨n2, hn2, he2⟩
      exact ⟨⟨n1, hn1, by rw [he1]⟩, ⟨n2, hn2, by rw [he2]⟩⟩
    · rw [if_neg hcond] at hfa
      cases hfa
  cases hns : g.nodes with
  | nil =>
      have h1 : legacyNodeRows g = [] := by unfold legacyNodeRows; rw [hns]; rfl
      have h2 : currentNodeRows g = [] := by unfold currentNodeRows; rw [hns]; rfl
      constructor
      · unfold decodeWorkbook decodeTabular
        rw [h1, h2]
        simp [tabMap, decodeLinks_nil]
      · intro l hl
        unfold decodeWorkbook decodeTabular at hl
        rw [h2] at hl
        simp only [tabMap, List.foldl_nil] at hl
        rw [decodeLinks_nil] at hl
        cases hl
  | cons n0 rest =>
      have hNL : isNewSchema (legacyNodeRows g) = false := by
        unfold legacyNodeRows; rw [hns]; rfl
      have hNC : isNewSchema (currentNodeRows g) = true := by
        unfold currentNodeRows; rw [hns]; rfl
      constructor
      · unfold decodeWorkbook
        rw [hNL, hNC]
        unfold decodeTabular
        simp only [TabGraph.mk.injEq]
        refine ⟨?_, ?_⟩
        · rw [decodeNodes_legacy_closed, decodeNodes_current_closed]
        · rw [decodeLinks_legacy_closed, decodeLinks_current_closed]
      · intro l hl
        unfold decodeWorkbook at hl
        rw [hNC] at hl
        unfold decodeTabular at hl
        simp only at hl
        rw [decodeLinks_current_closed] at hl
        have hres := hmemlinks l hl
        rw [hns] at hres
        exact hres

/-- C2 witness: schema-version transparency at a concrete two-node,
two-link graph (one dangling link included). -/
theorem schema_version_transparency_witness :
    decodeWorkbook
        (legacyNodeRows ⟨[⟨"A", 1, none, none, none⟩, ⟨"B", 2, none, none, none⟩],
          [⟨"A", "B", 1⟩, ⟨"B", "X", 2⟩], none, none⟩)
        (legacyLinkRows ⟨[⟨"A", 1, none, none, none⟩, ⟨"B", 2, none, none, none⟩],
          [⟨"A", "B", 1⟩, ⟨"B", "X", 2⟩], none, none⟩) =
      decodeWorkbook
        (currentNodeRows ⟨[⟨"A", 1, none, none, none⟩, ⟨"B", 2, none, none, none⟩],
          [⟨"A", "B", 1⟩, ⟨"B", "X", 2⟩], none, none⟩)
        (currentLinkRows ⟨[⟨"A", 1, none, none, none⟩, ⟨"B", 2, none, none, none⟩],
          [⟨"A", "B", 1⟩, ⟨"B", "X", 2⟩], none, none⟩) :=
  (schema_version_transparency
    ⟨[⟨"A", 1, none, none, none⟩, ⟨"B", 2, none, none, none⟩],
      [⟨"A", "B", 1⟩, ⟨"B", "X", 2⟩], none, none⟩).1

/-- C4: the Plain decode does fail whenever nodes or links is missing,
and the vanilla import path leaves the live graph untouched on failure;
but the React handleImport stores the raw document with setGraphData
before validating it, so a failed import of a document that has nodes but
no links leaves the live graphData replaced by the malformed document —
the import is not all-or-nothing there, contradicting the claim and the
spec while the duplicated vanilla implementation honours them. -/
theorem plain_import_not_all_or_nothing :
    processResult ⟨some [⟨"A", 1, none, none, none⟩], none, none, none⟩ =
      .error "missing nodes or links" ∧
    importPlainVanilla (some ⟨[⟨"B", 2, none, none, none⟩], [], none, none⟩)
        ⟨some [⟨"A", 1, none, none, none⟩], none, none, none⟩ =
      (some ⟨[⟨"B", 2, none, none, none⟩], [], none, none⟩, false) ∧
    (handleImport
        ⟨some (encodePlain ⟨[⟨"B", 2, none, none, none⟩], [], none, none⟩), none, 10,
          some ⟨[⟨"B", 2, none, none, none⟩], [], none, none⟩⟩
        ⟨some [⟨"A", 1, none, none, none⟩], none, none, none⟩).2 = false ∧
    (handleImport
        ⟨some (encodePlain ⟨[⟨"B", 2, none, none, none⟩], [], none, none⟩), none, 10,
          some ⟨[⟨"B", 2, none, none, none⟩], [], none, none⟩⟩
        ⟨some [⟨"A", 1, none, none, none⟩], none, none, none⟩).1.graphData =
      some ⟨some [⟨"A", 1, none, none, none⟩], none, none, none⟩ ∧
    some (⟨some [⟨"A", 1, none, none, none⟩], none, none, none⟩ : PlainDoc) ≠
      some (encodePlain ⟨[⟨"B", 2, none, none, none⟩], [], none, none⟩) := by
  refine ⟨rfl, rfl, rfl, rfl, by decide⟩

theorem length_filterMap_countP (l : List α) (f : α → Option β) :
    (l.filterMap f).length = l.countP (fun a => (f a).isSome) := by
  induction l with
  | nil => rfl
  | cons a t ih =>
      cases hfa : f a <;> simp [List.filterMap_cons, List.countP_cons, hfa, ih]

theorem countP_not_add (p : α → Bool) (l : List α) :
    l.countP p + l.countP (fun a => !(p a)) = l.length := by
  induction l with
  | nil => rfl
  | cons a t ih => cases hpa : p a <;> simp [List.countP_cons, hpa] <;> omega

theorem keepRow_isSome (m : CellMap) (r : LinkRow) :
    ((match resolveEnd m r.source, resolveEnd m r.target with
      | some s, some t => some (⟨s, t, r.weight⟩ : TabLink)
      | _, _ => none)).isSome = keepRow m r := by
  unfold keepRow
  cases resolveEnd m r.source <;> cases resolveEnd m r.target <;> rfl

/-- C1 counterexample: the Workbook round trip does not preserve every
link of every Graph.  For the graph with the single node whose id is the
empty string and a single self link on it, the decode's truthiness filter
(sourceLabel && targetLabel) rejects the resolved empty-string label, so
the encoded link is lost even though both endpoints are in the node
table. -/
theorem round_trip_identity_counterexample :
    (decodeWorkbook
        (encodeExcelNodes ⟨[⟨"", 1, none, none, none⟩], [⟨"", "", 1⟩], none, none⟩)
        (encodeExcelLinks ⟨[⟨"", 1, none, none, none⟩], [⟨"", "", 1⟩], none, none⟩)).links
      = [] ∧
    (⟨[⟨"", 1, none, none, none⟩], [⟨"", "", 1⟩], none, none⟩ : GraphData).links.length = 1 := by
  constructor
  · decide
  · rfl

/-- C1 (amended): for a Graph with unique node ids (the data-model
invariant), non-empty node ids and link endpoints drawn from the node id
set, decode of encode preserves the node id sequence, every node weight
(exactly for Plain and EmbeddedDB, to the declared two-decimal rounding
for the Workbook), and every link's endpoint-id pair and weight (exact
for Plain and EmbeddedDB, weight rounded for the Workbook); group and
meta fields round-trip exactly for the Plain format, whose decode returns
the graph unchanged. -/
theorem round_trip_identity (g : GraphData)
    (hnodup : (g.nodes.map (·.id)).Nodup)
    (hne : ∀ n ∈ g.nodes, n.id ≠ "")
    (hsrc : ∀ l ∈ g.links, l.source ∈ g.nodes.map (·.id))
    (htgt : ∀ l ∈ g.links, l.target ∈ g.nodes.map (·.id)) :
    processResult (encodePlain g) = .ok g ∧
    decodeWorkbook (encodeExcelNodes g) (encodeExcelLinks g) =
      ⟨g.nodes.map (fun n => ⟨.str n.id, round2 n.weight, none, none, none⟩),
       g.links.map (fun l => ⟨.str l.source, .str l.target, round2 l.weight⟩)⟩ ∧
    decodeSQLite true (encodeSQLiteNodes g) (encodeSQLiteLinks g) =
      ⟨g.nodes.map (fun n => ⟨.str n.id, n.weight, none, none, none⟩),
       g.links.map (fun l => ⟨.str l.source, .str l.target, l.weight⟩)⟩ := by
  have hcond : ∀ l ∈ g.links,
      (l.source ∈ g.nodes.map (·.id) ∧ l.source ≠ "") ∧
      (l.target ∈ g.nodes.map (·.id) ∧ l.target ≠ "") := by
    intro l hl
    have h1 := hsrc l hl
    have h2 := htgt l hl
    rcases List.mem_map.mp h1 with ⟨n1, hn1, he1⟩
    rcases List.mem_map.mp h2 with ⟨n2, hn2, he2⟩
    exact ⟨⟨h1, he1 ▸ hne n1 hn1⟩, ⟨h2, he2 ▸ hne n2 hn2⟩⟩
  refine ⟨rfl, ?_, ?_⟩
  · unfold decodeWorkbook
    rw [isNewSchema_excel]
    unfold decodeTabular
    simp only [TabGraph.mk.injEq]
    constructor
    · simp [encodeExcelNodes, List.map_map, decodeNodeRow, Function.comp]
    · have hrows : (encodeExcelNodes g).map (·.id) =
          g.nodes.map (fun n => Cell.str n.id) := by
        simp [encodeExcelNodes, List.map_map, Function.comp]
      unfold decodeLinks encodeExcelLinks
      rw [List.filterMap_map]
      apply filterMap_all_some
      intro l hl
      simp only [Function.comp_apply]
      rw [resolveEnd_strRows (encodeExcelNodes g) g hrows l.source,
        resolveEnd_strRows (encodeExcelNodes g) g hrows l.target,
        if_pos (hcond l hl).1, if_pos (hcond l hl).2]
  · unfold decodeSQLite
    rw [encodeSQLiteNodes_eq_current g hnodup,
      encodeSQLiteLinks_eq_current g hnodup hsrc htgt]
    unfold decodeTabular
    simp only [TabGraph.mk.injEq]
    constructor
    · exact decodeNodes_current_closed g
    · rw [decodeLinks_current_closed]
      apply filterMap_all_some
      intro l hl
      rw [if_pos (hcond l hl)]

/-- C3 counterexample: the decoded link count is not in general the input
count minus the dangling count.  For a Legacy node table holding the
single empty-string id and a self link on it, no link is dangling (both
endpoints are in the id-to-label map), yet the decode keeps zero of the
one input link, because the truthiness filter also rejects a present but
empty label. -/
theorem dangling_link_omission_counterexample :
    (decodeWorkbook [⟨.str "", none, 1⟩] [⟨.str "", .str "", 1⟩]).links.length = 0 ∧
    ([⟨.str "", .str "", 1⟩] : List LinkRow).countP
        (isDangling (tabMap (isNewSchema [⟨.str "", none, 1⟩]) [⟨.str "", none, 1⟩])) = 0 ∧
    ([⟨.str "", .str "", 1⟩] : List LinkRow).length = 1 := by
  refine ⟨by decide, by decide, rfl⟩

/-- C3 (amended): tabular link decode is total and drops rows silently:
the decoded link count equals the input count minus the number of rows
that fail the endpoint filter, a row fails the filter whenever an
endpoint is absent from the id-to-label map (dangling), and every row
both of whose endpoints resolve to truthy labels is kept.  (The original
claim fails only in that a present-but-falsy label is dropped too.) -/
theorem dangling_link_omission (hasLabel : Bool) (nodeRows : List NodeRow)
    (linkRows : List LinkRow) :
    (decodeTabular hasLabel nodeRows linkRows).links.length =
      linkRows.length -
        linkRows.countP (fun r => !(keepRow (tabMap hasLabel nodeRows) r)) ∧
    (∀ r ∈ linkRows, isDangling (tabMap hasLabel nodeRows) r = true →
       keepRow (tabMap hasLabel nodeRows) r = false) ∧
    (decodeTabular hasLabel nodeRows linkRows).links.length =
      linkRows.countP (keepRow (tabMap hasLabel nodeRows)) := by
  have hlen : (decodeTabular hasLabel nodeRows linkRows).links.length =
      linkRows.countP (keepRow (tabMap hasLabel nodeRows)) := by
    unfold decodeTabular decodeLinks
    rw [length_filterMap_countP]
    apply List.countP_congr
    intro r _
    rw [keepRow_isSome (tabMap hasLabel nodeRows) r]
  refine ⟨?_, ?_, hlen⟩
  · rw [hlen]
    have := countP_not_add (keepRow (tabMap hasLabel nodeRows)) linkRows
    omega
  · intro r _ hd
    unfold keepRow
    unfold isDangling at hd
    rcases Bool.or_eq_true_iff.mp hd with hn | hn
    · have : resolveEnd (tabMap hasLabel nodeRows) r.source = none := by
        unfold resolveEnd
        rw [Option.isNone_iff_eq_none.mp hn]
      rw [this]
      rfl
    · have : resolveEnd (tabMap hasLabel nodeRows) r.target = none := by
        unfold resolveEnd
        rw [Option.isNone_iff_eq_none.mp hn]
      rw [this]
      simp

/-- C3 witness: the amended dangling-link theorem at a concrete Legacy
table with one dangling link. -/
theorem dangling_link_omission_witness :
    (decodeTabular false [⟨.str "A", none, 1⟩]
        [⟨.str "A", .str "A", 1⟩, ⟨.str "A", .str "X", 2⟩]).links.length =
      ([⟨.str "A", .str "A", 1⟩, ⟨.str "A", .str "X", 2⟩] : List LinkRow).length -
        ([⟨.str "A", .str "A", 1⟩, ⟨.str "A", .str "X", 2⟩] : List LinkRow).countP
          (fun r => !(keepRow (tabMap false [⟨.str "A", none, 1⟩]) r)) :=
  (dangling_link_omission false [⟨.str "A", none, 1⟩]
    [⟨.str "A", .str "A", 1⟩, ⟨.str "A", .str "X", 2⟩]).1

/-- C1 witness: the amended round-trip theorem applied to a concrete
two-node, one-link graph with meta and group names. -/
theorem round_trip_identity_witness :
    ((([⟨"A", 1, some 0, none, none⟩, ⟨"B", 2, some 1, none, none⟩] :
        List GNode).map (·.id)).Nodup ∧
     (∀ n ∈ ([⟨"A", 1, some 0, none, none⟩, ⟨"B", 2, some 1, none, none⟩] :
        List GNode), n.id ≠ "")) ∧
    processResult (encodePlain ⟨[⟨"A", 1, some 0, none, none⟩, ⟨"B", 2, some 1, none, none⟩],
        [⟨"A", "B", 1⟩], some ⟨some "f.txt", some "1s", some ⟨2, 1⟩⟩,
        some [("0", "G0")]⟩) =
      .ok ⟨[⟨"A", 1, some 0, none, none⟩, ⟨"B", 2, some 1, none, none⟩],
        [⟨"A", "B", 1⟩], some ⟨some "f.txt", some "1s", some ⟨2, 1⟩⟩,
        some [("0", "G0")]⟩ := by
  refine ⟨⟨by decide, by decide⟩, ?_⟩
  exact (round_trip_identity
    ⟨[⟨"A", 1, some 0, none, none⟩, ⟨"B", 2, some 1, none, none⟩],
      [⟨"A", "B", 1⟩], some ⟨some "f.txt", some "1s", some ⟨2, 1⟩⟩,
      some [("0", "G0")]⟩
    (by decide) (by decide) (by decide) (by decide)).1

/-- C6: the layout advances the simulation for exactly the fixed budget
of 300 discrete ticks (the for loop equals the 300-fold iterate of the
tick function, a total computation — the stopped simulation never
free-runs afterwards), and an empty node set is a valid no-op: the layout
pass returns the graph unchanged. -/
theorem layout_fixed_steps_and_empty_noop :
    (∀ (w h : ℚ) (s : SimState), simulateLoop w h s = (tick w h)^[300] s) ∧
    (∀ (ls : List GLink) (m : Option GMeta) (gn : Option (List (String × String)))
       (w h : ℚ), layoutGraph ⟨[], ls, m, gn⟩ w h = ⟨[], ls, m, gn⟩) := by
  constructor
  · intro w h s
    have hgen : ∀ (n : Nat) (s0 : SimState),
        (List.range n).foldl (fun a _ => tick w h a) s0 = (tick w h)^[n] s0 := by
      intro n
      induction n with
      | zero => intro s0; rfl
      | succ k ih =>
          intro s0
          rw [List.range_succ, List.foldl_append, Function.iterate_succ_apply']
          simp [ih]
    exact hgen 300 s
  · intro ls m gn w h
    rfl

/-- C6 witness: the fixed-step characterisation and the empty no-op at
concrete inputs. -/
theorem layout_fixed_steps_and_empty_noop_witness :
    simulateLoop 100 100 ⟨[], [], 1, 1⟩ = (tick 100 100)^[300] ⟨[], [], 1, 1⟩ ∧
    layoutGraph ⟨[], [⟨"A", "B", 1⟩], none, none⟩ 640 480 =
      ⟨[], [⟨"A", "B", 1⟩], none, none⟩ :=
  ⟨layout_fixed_steps_and_empty_noop.1 100 100 ⟨[], [], 1, 1⟩,
   layout_fixed_steps_and_empty_noop.2 [⟨"A", "B", 1⟩] none none 640 480⟩

theorem mem_neighborVanilla_aux (sel x : String) :
    ∀ (links : List GLink) (acc : Finset String),
      (x ∈ links.foldl (fun acc l =>
          if l.source = sel || l.target = sel then insert l.source (insert l.target acc)
          else acc) acc ↔
       x ∈ acc ∨ ∃ l ∈ links, (l.source = sel ∨ l.target = sel) ∧
         (x = l.source ∨ x = l.target)) := by
  intro links
  induction links with
  | nil => intro acc; simp
  | cons a t ih =>
      intro acc
      simp only [List.foldl_cons]
      by_cases hc : a.source = sel || a.target = sel
      · rw [if_pos hc, ih]
        have hcp : a.source = sel ∨ a.target = sel := by simpa using hc
        simp only [Finset.mem_insert, List.mem_cons, exists_eq_or_imp]
        aesop
      · rw [if_neg hc, ih]
        have hcp : ¬(a.source = sel ∨ a.target = sel) := by simpa using hc
        simp only [List.mem_cons, exists_eq_or_imp]
        aesop

theorem mem_neighborReact_aux (sel x : String) :
    ∀ (links : List GLink) (acc : Finset String),
      (x ∈ links.foldl (fun acc l =>
          let acc1 := if l.source = sel then insert l.target acc else acc
          if l.target = sel then insert l.source acc1 else acc1) acc ↔
       x ∈ acc ∨ ∃ l ∈ links, (l.source = sel ∧ x = l.target) ∨
         (l.target = sel ∧ x = l.source)) := by
  intro links
  induction links with
  | nil => intro acc; simp
  | cons a t ih =>
      intro acc
      simp only [List.foldl_cons]
      by_cases h1 : a.source = sel <;> by_cases h2 : a.target = sel <;>
        simp only [h1, h2, if_pos, if_neg, if_true, if_false, ih, Finset.mem_insert,
          List.mem_cons, exists_eq_or_imp] <;>
        aesop

/-- C7 counterexample: the derived neighbor-id set of the vanilla
renderer (index.js highlightNeighbors) is empty for an isolated selected
node, not the singleton of the selected id that the claim requires: the
set only ever collects endpoints of links touching the selection. -/
theorem highlight_correctness_counterexample :
    neighborIdsVanilla [⟨"A", "B", 1⟩] "C" = (∅ : Finset String) ∧
    "C" ∉ neighborIdsVanilla [⟨"A", "B", 1⟩] "C" ∧
    "C" ∈ ({"C"} : Finset String) := by
  refine ⟨by decide, by decide, by decide⟩

/-- C7 (amended): the framework renderer's derived neighbor set equals
exactly the selected id together with every id connected to it by some
link (including the isolated case, where it is the singleton), while the
vanilla renderer's derived set equals the set of endpoints of links
touching the selection — which contains the selected id whenever it has
at least one link but is empty for an isolated selection; clearing the
selection (a background interaction) restores full opacity 1 to every
node and link in both renderers. -/
theorem highlight_correctness (links : List GLink) (sel x : String) :
    (x ∈ neighborIdsReact links sel ↔ x = sel ∨ ∃ l ∈ links, linkConnects l sel x) ∧
    (x ∈ neighborIdsVanilla links sel ↔
       ∃ l ∈ links, (l.source = sel ∨ l.target = sel) ∧ (x = l.source ∨ x = l.target)) ∧
    ((∃ l ∈ links, l.source = sel ∨ l.target = sel) → sel ∈ neighborIdsVanilla links sel) ∧
    (∀ nid, nodeOpacityVanilla links none nid = 1) ∧
    (∀ l, linkOpacityVanilla none l = 1) ∧
    (∀ nid, nodeOpacityReact links none nid = 1) ∧
    (∀ l, linkOpacityReact none l = 1) := by
  have hvan : x ∈ neighborIdsVanilla links sel ↔
      ∃ l ∈ links, (l.source = sel ∨ l.target = sel) ∧ (x = l.source ∨ x = l.target) := by
    unfold neighborIdsVanilla
    rw [mem_neighborVanilla_aux sel x links ∅]
    simp
  refine ⟨?_, hvan, ?_, fun nid => rfl, fun l => rfl, fun nid => rfl, fun l => rfl⟩
  · unfold neighborIdsReact
    rw [mem_neighborReact_aux sel x links {sel}]
    rw [Finset.mem_singleton]
    apply or_congr_right
    apply exists_congr
    intro l
    apply and_congr_right
    intro _
    unfold linkConnects
    constructor
    · rintro (⟨ha, hb⟩ | ⟨ha, hb⟩)
      · exact Or.inl ⟨ha, hb.symm⟩
      · exact Or.inr ⟨hb.symm, ha⟩
    · rintro (⟨ha, hb⟩ | ⟨ha, hb⟩)
      · exact Or.inl ⟨ha, hb.symm⟩
      · exact Or.inr ⟨hb, ha.symm⟩
  · rintro ⟨l, hl, hor⟩
    have hx : ∃ l2 ∈ links, (l2.source = sel ∨ l2.target = sel) ∧
        (sel = l2.source ∨ sel = l2.target) := by
      refine ⟨l, hl, hor, ?_⟩
      rcases hor with h | h
      · exact Or.inl h.symm
      · exact Or.inr h.symm
    exact (mem_neighborVanilla_aux sel sel links ∅).mpr (Or.inr hx)

/-- C8: deleting the selected node removes that node and every link
touching it from the Graph and clears the selection; export then
serializes exactly this post-deletion Graph (graphData || filteredData
with graphData freshly replaced), so the deleted id appears on no node
and no link endpoint of the exported output.  On the concrete A-B, B-C
example, deleting B leaves 2 nodes and 0 links. -/
theorem delete_node_removes_all (st : MainState) (sel : GNode) (g : GraphData)
    (hsel : st.selectedNode = some sel) (hg : st.graphData = some g) :
    (handleDeleteNode st).graphData = some (deleteNodeFromGraph g sel.id) ∧
    (handleDeleteNode st).selectedNode = none ∧
    (∀ n ∈ (deleteNodeFromGraph g sel.id).nodes, n.id ≠ sel.id) ∧
    (∀ l ∈ (deleteNodeFromGraph g sel.id).links,
       l.source ≠ sel.id ∧ l.target ≠ sel.id) ∧
    handleExport (handleDeleteNode st) = some (deleteNodeFromGraph g sel.id) ∧
    (deleteNodeFromGraph
        ⟨[⟨"A", 1, none, none, none⟩, ⟨"B", 2, none, none, none⟩,
          ⟨"C", 1, none, none, none⟩],
         [⟨"A", "B", 1⟩, ⟨"B", "C", 2⟩], none, none⟩ "B").nodes.length = 2 ∧
    (deleteNodeFromGraph
        ⟨[⟨"A", 1, none, none, none⟩, ⟨"B", 2, none, none, none⟩,
          ⟨"C", 1, none, none, none⟩],
         [⟨"A", "B", 1⟩, ⟨"B", "C", 2⟩], none, none⟩ "B").links = [] := by
  have hred : handleDeleteNode st =
      { st with graphData := some (deleteNodeFromGraph g sel.id),
                filteredData := some (filterData (deleteNodeFromGraph g sel.id) st.nodeCount),
                selectedNode := none,
                contextOpen := false } := by
    unfold handleDeleteNode
    rw [hsel, hg]
  refine ⟨by rw [hred], by rw [hred], ?_, ?_, by rw [hred]; rfl, by decide, by decide⟩
  · intro n hn
    have := List.mem_filter.mp hn
    simpa using this.2
  · intro l hl
    have := List.mem_filter.mp hl
    have h2 := this.2
    simp only [Bool.and_eq_true, decide_eq_true_eq] at h2
    exact h2

/-- C8 witness: the deletion theorem applied to the concrete three-node
state with B selected. -/
theorem delete_node_removes_all_witness :
    (handleDeleteNode
        ⟨some ⟨[⟨"A", 1, none, none, none⟩, ⟨"B", 2, none, none, none⟩,
            ⟨"C", 1, none, none, none⟩],
          [⟨"A", "B", 1⟩, ⟨"B", "C", 2⟩], none, none⟩,
         none, some ⟨"B", 2, none, none, none⟩, 200, true⟩).graphData =
      some (deleteNodeFromGraph
        ⟨[⟨"A", 1, none, none, none⟩, ⟨"B", 2, none, none, none⟩,
          ⟨"C", 1, none, none, none⟩],
         [⟨"A", "B", 1⟩, ⟨"B", "C", 2⟩], none, none⟩ "B") ∧
    (handleDeleteNode
        ⟨some ⟨[⟨"A", 1, none, none, none⟩, ⟨"B", 2, none, none, none⟩,
            ⟨"C", 1, none, none, none⟩],
          [⟨"A", "B", 1⟩, ⟨"B", "C", 2⟩], none, none⟩,
         none, some ⟨"B", 2, none, none, none⟩, 200, true⟩).selectedNode = none := by
  have hmain := delete_node_removes_all
    ⟨some ⟨[⟨"A", 1, none, none, none⟩, ⟨"B", 2, none, none, none⟩,
        ⟨"C", 1, none, none, none⟩],
      [⟨"A", "B", 1⟩, ⟨"B", "C", 2⟩], none, none⟩,
     none, some ⟨"B", 2, none, none, none⟩, 200, true⟩
    ⟨"B", 2, none, none, none⟩
    ⟨[⟨"A", 1, none, none, none⟩, ⟨"B", 2, none, none, none⟩,
      ⟨"C", 1, none, none, none⟩],
     [⟨"A", "B", 1⟩, ⟨"B", "C", 2⟩], none, none⟩
    rfl rfl
  exact ⟨hmain.1, hmain.2.1⟩

/-- C9: the Workbook decoder decides the schema variant from the first
parsed node row only — isNewSchema holds exactly when the row list is
non-empty and its head carries a label field — and a table whose first
row has no label cell is decoded as Legacy throughout: every decoded
node, including later rows that do carry labels, takes its id from the id
column. -/
theorem workbook_first_row_schema_detection :
    (∀ rows : List NodeRow, isNewSchema rows = true ↔
        ∃ r t, rows = r :: t ∧ r.label.isSome = true) ∧
    (∀ (rid : Cell) (wt : ℚ) (rest : List NodeRow) (linkRows : List LinkRow),
        decodeWorkbook (⟨rid, none, wt⟩ :: rest) linkRows =
          decodeTabular false (⟨rid, none, wt⟩ :: rest) linkRows ∧
        (decodeWorkbook (⟨rid, none, wt⟩ :: rest) linkRows).nodes =
          (⟨rid, none, wt⟩ :: rest).map (fun r => ⟨r.id, r.weight, none, none, none⟩)) := by
  constructor
  · intro rows
    cases rows with
    | nil => simp [isNewSchema]
    | cons r t =>
        simp only [isNewSchema]
        constructor
        · intro h
          exact ⟨r, t, rfl, h⟩
        · rintro ⟨r2, t2, heq, h2⟩
          injection heq with h3 h4
          rw [h3]
          exact h2
  · intro rid wt rest linkRows
    exact ⟨rfl, rfl⟩

/-- C9 witness: a Current-looking table whose first row lacks the label
cell is decoded as Legacy throughout — the second row's label "B" is
ignored and both decoded ids are the raw id-column cells. -/
theorem workbook_first_row_schema_detection_witness :
    (decodeWorkbook [⟨.num 1, none, 1⟩, ⟨.num 2, some (.str "B"), 2⟩] []).nodes =
      [⟨.num 1, 1, none, none, none⟩, ⟨.num 2, 2, none, none, none⟩] := by
  have h := (workbook_first_row_schema_detection.2 (.num 1) 1
    [⟨.num 2, some (.str "B"), 2⟩] []).2
  rw [h]
  rfl

/-- C10: the Workbook and EmbeddedDB encoders persist only identity and
weight per node — the encoded tables are invariant under changes to
group, groupName, positions, meta and group_names that keep the
(id, weight) sequence and the links — and every node produced by a
tabular decode carries only an id and a weight: its group, groupName and
position are absent. -/
theorem encoders_persist_only_id_and_weight :
    (∀ g g2 : GraphData,
       g.nodes.map (fun n => (n.id, n.weight)) = g2.nodes.map (fun n => (n.id, n.weight)) →
       g.links = g2.links →
       encodeExcelNodes g = encodeExcelNodes g2 ∧
       encodeExcelLinks g = encodeExcelLinks g2 ∧
       encodeSQLiteNodes g = encodeSQLiteNodes g2 ∧
       encodeSQLiteLinks g = encodeSQLiteLinks g2) ∧
    (∀ (hasLabel : Bool) (nodeRows : List NodeRow) (linkRows : List LinkRow),
       ∀ n ∈ (decodeTabular hasLabel nodeRows linkRows).nodes,
         n.group = none ∧ n.groupName = none ∧ n.pos = none) := by
  constructor
  · intro g g2 hnw hlinks
    have hexn : ∀ gg : GraphData, encodeExcelNodes gg =
        (gg.nodes.map (fun n => (n.id, n.weight))).map
          (fun p => (⟨.str p.1, none, round2 p.2⟩ : NodeRow)) := by
      intro gg
      rw [List.map_map]
      rfl
    have hmapOf : ∀ gg : GraphData, nodeMapOf gg =
        buildNodeMap ((gg.nodes.map (fun n => (n.id, n.weight))).map (·.1)) := by
      intro gg
      rw [List.map_map]
      rfl
    have hsqn : ∀ gg : GraphData, encodeSQLiteNodes gg =
        (gg.nodes.map (fun n => (n.id, n.weight))).map (fun p =>
          (⟨(mapGet (buildNodeMap ((gg.nodes.map (fun n => (n.id, n.weight))).map (·.1)))
              (.str p.1)).getD Cell.undef, some (.str p.1), p.2⟩ : NodeRow)) := by
      intro gg
      simp only [List.map_map]
      rfl
    refine ⟨?_, ?_, ?_, ?_⟩
    · rw [hexn g, hexn g2, hnw]
    · unfold encodeExcelLinks
      rw [hlinks]
    · rw [hsqn g, hsqn g2, hnw]
    · unfold encodeSQLiteLinks
      rw [hmapOf g, hmapOf g2, hnw, hlinks]
  · intro hasLabel nodeRows linkRows n hn
    rcases List.mem_map.mp hn with ⟨r, _, rfl⟩
    cases hasLabel <;> exact ⟨rfl, rfl, rfl⟩

/-- C10 witness: two graphs with the same (id, weight) sequence and links
but different group, groupName, position, meta and group_names data
produce identical Workbook and EmbeddedDB node tables. -/
theorem encoders_persist_only_id_and_weight_witness :
    encodeExcelNodes ⟨[⟨"A", 1, some 3, some "G", some (5, 6)⟩], [⟨"A", "A", 2⟩],
        some ⟨some "f", none, none⟩, some [("3", "G")]⟩ =
      encodeExcelNodes ⟨[⟨"A", 1, none, none, none⟩], [⟨"A", "A", 2⟩], none, none⟩ ∧
    encodeSQLiteNodes ⟨[⟨"A", 1, some 3, some "G", some (5, 6)⟩], [⟨"A", "A", 2⟩],
        some ⟨some "f", none, none⟩, some [("3", "G")]⟩ =
      encodeSQLiteNodes ⟨[⟨"A", 1, none, none, none⟩], [⟨"A", "A", 2⟩], none, none⟩ := by
  have h := encoders_persist_only_id_and_weight.1
    ⟨[⟨"A", 1, some 3, some "G", some (5, 6)⟩], [⟨"A", "A", 2⟩],
      some ⟨some "f", none, none⟩, some [("3", "G")]⟩
    ⟨[⟨"A", 1, none, none, none⟩], [⟨"A", "A", 2⟩], none, none⟩
    (by decide) rfl
  exact ⟨h.1, h.2.2.1⟩
